import Mathlib

/-!
Verification of the `eduwass/gutenberg` fragment: the server-side renderer of
the `core/query-total` block (PHP, `render_block_core_query_total`) and the
state logic of the `LinkControl` React component
(`packages/block-editor/src/components/link-control/index.js`).

The embedding is shallow: PHP/JS values become Lean values (JS `undefined`able
strings become `Option String`), the PHP renderer becomes a pure string
function, and the React component's handlers and effects become pure functions
from props/state to the next state together with the list of emitted
notifications/actions.
-/

namespace QueryTotal

/-- `'<strong>' . $n . '</strong>'` — the markup wrapping each number in the
renderer's output. -/
def strongWrap (n : Int) : String :=
  "<strong>" ++ toString n ++ "</strong>"

/-- Shallow embedding of the body of `render_block_core_query_total`
(blocks/query-total.php) from the range computation onwards, producing the
`$output` string.  `current_page`, `posts_per_page` and `found_posts`
(`$max_rows`) are the already-extracted query numbers; the query-building
preamble and `get_block_wrapper_attributes` are framework glue outside the
function's formatting logic.  `__` is the identity (default locale) and
`_n( s, p, n )` selects `s` exactly when `n == 1`. -/
def query_total_output (displayType : String)
    (current_page posts_per_page found_posts : Int) : String :=
  let start := (current_page - 1) * posts_per_page + 1
  let e := min (start + posts_per_page - 1) found_posts
  if displayType = "range-display" then
    let range_text :=
      if start = e then
        "Displaying " ++ strongWrap start ++ " of " ++ strongWrap found_posts
      else
        "Displaying " ++ strongWrap start ++ " – " ++ strongWrap e ++
          " of " ++ strongWrap found_posts
    "<p>" ++ range_text ++ "</p>"
  else
    "<p><strong>" ++ toString found_posts ++ "</strong> " ++
      (if found_posts = 1 then "result found" else "results found") ++ "</p>"

/-- `render_block_core_query_total` returns the output wrapped in
`<div {$wrapper_attributes}>…</div>`; the attributes come from the framework
and are passed through unchanged. -/
def render_block_core_query_total (wrapper_attributes displayType : String)
    (current_page posts_per_page found_posts : Int) : String :=
  "<div " ++ wrapper_attributes ++ ">" ++
    query_total_output displayType current_page posts_per_page found_posts ++
    "</div>"

/-- One-pass tag remover over a character list; the Boolean records whether we
are currently inside a `<...>` tag. -/
def stripTagsAux : Bool → List Char → List Char
  | _, [] => []
  | true, c :: rest =>
    if c = '>' then stripTagsAux false rest else stripTagsAux true rest
  | false, c :: rest =>
    if c = '<' then stripTagsAux true rest else c :: stripTagsAux false rest

/-- Text content of the rendered output: the output with the presentational
HTML markup (`<p>`, `<strong>`, …) removed. -/
def stripMarkup (s : String) : String :=
  String.mk (stripTagsAux false s.data)

end QueryTotal

namespace LinkControl

/-- A JS link value object (`WPLinkControlValue`): `url` and `title` may be
absent (`undefined`); `rest` models the remaining properties
(`opensInNewTab`, custom settings, …) carried through by object spread. -/
structure LinkValue where
  url : Option String := none
  title : Option String := none
  rest : List (String × String) := []
deriving DecidableEq, Repr

/-- JS string truthiness: `undefined` and `''` are falsy. -/
def jsTruthy : Option String → Bool
  | none => false
  | some s => s ≠ ""

/-- JS `String.prototype.trim`, modelled structurally: strip whitespace from
both ends of the character list. -/
def jsTrim (s : String) : String :=
  String.mk
    (((s.data.dropWhile Char.isWhitespace).reverse.dropWhile
      Char.isWhitespace).reverse)

/-- The `useState` initializer of `isEditingLink` (index.js 165–169):
`forceIsEditingLink !== undefined ? forceIsEditingLink : ! value || ! value.url`. -/
def initialIsEditingLink (forceIsEditingLink : Option Bool)
    (value : Option LinkValue) : Bool :=
  match forceIsEditingLink with
  | some b => b
  | none => value.isNone || ! jsTruthy (value.bind LinkValue.url)

/-- Result of running one of the component's commit handlers: the values
passed to `onChange` (in order) and the state bits written by `stopEditing`
(index.js 220–226); `isEndingEditWithFocus` receives the DOM fact
`wrapperNode.current.contains(activeElement)`. -/
structure HandlerResult where
  emitted : List LinkValue
  isEditingLink : Bool
  isEndingEditWithFocus : Bool
deriving DecidableEq, Repr

/-- `currentUrlInputValue = propInputValue || internalUrlInputValue`
(index.js 236). -/
def currentUrlInputValue (propInputValue internalUrlInputValue : String) :
    String :=
  if propInputValue ≠ "" then propInputValue else internalUrlInputValue

/-- `{ ...value, url, title }` — the committed value extended with the draft
URL and title (spreading `undefined` yields `{}`). -/
def extendValue (value : Option LinkValue) (url title : String) : LinkValue :=
  { value.getD {} with url := some url, title := some title }

/-- `handleSubmit` (index.js 238–250) with `stopEditing` inlined: `onChange`
fires iff `currentUrlInputValue !== value?.url || internalTextInputValue !==
value?.title`, and editing always ends. -/
def handleSubmit (value : Option LinkValue)
    (currentUrl internalTextInputValue : String) (focusInWrapper : Bool) :
    HandlerResult :=
  if some currentUrl ≠ value.bind LinkValue.url ∨
      some internalTextInputValue ≠ value.bind LinkValue.title then
    { emitted := [extendValue value currentUrl internalTextInputValue],
      isEditingLink := false,
      isEndingEditWithFocus := focusInWrapper }
  else
    { emitted := [],
      isEditingLink := false,
      isEndingEditWithFocus := focusInWrapper }

/-- `handleSubmit` as wired in the component: the compared and committed URL
is `currentUrlInputValue propInputValue internalUrlInputValue`. -/
def handleSubmitFull (value : Option LinkValue)
    (propInputValue internalUrlInputValue internalTextInputValue : String)
    (focusInWrapper : Bool) : HandlerResult :=
  handleSubmit value (currentUrlInputValue propInputValue internalUrlInputValue)
    internalTextInputValue focusInWrapper

/-- `handleSelectSuggestion` (index.js 228–234):
`onChange({ ...updatedValue, title: internalTextInputValue || updatedValue?.title })`
followed by `stopEditing()`. -/
def handleSelectSuggestion (internalTextInputValue : String)
    (updatedValue : LinkValue) (focusInWrapper : Bool) : HandlerResult :=
  { emitted := [{ updatedValue with
      title := if internalTextInputValue ≠ "" then some internalTextInputValue
        else updatedValue.title }],
    isEditingLink := false,
    isEndingEditWithFocus := focusInWrapper }

/-- `currentInputIsEmpty = ! currentUrlInputValue?.trim()?.length`
(index.js 257). -/
def currentInputIsEmpty (propInputValue internalUrlInputValue : String) :
    Bool :=
  decide
    ((jsTrim (currentUrlInputValue propInputValue
      internalUrlInputValue)).length = 0)

/-- `showTextControl = value?.url?.trim()?.length > 0 && hasTextControl`
(index.js 267); a broken optional chain yields `undefined > 0`, i.e. false. -/
def showTextControl (value : Option LinkValue) (hasTextControl : Bool) : Bool :=
  ((value.bind LinkValue.url).elim false fun u =>
    decide ((jsTrim u).length > 0)) && hasTextControl

/-- `shouldShowEditControls = ( isEditingLink || ! value ) && ! isCreatingPage`
(index.js 269–270). -/
def shouldShowEditControls (isEditingLink : Bool) (value : Option LinkValue)
    (isCreatingPage : Bool) : Bool :=
  (isEditingLink || value.isNone) && ! isCreatingPage

/-- `shouldShowLinkPreview = value && ! isEditingLink && ! isCreatingPage`
(index.js 272). -/
def shouldShowLinkPreview (isEditingLink : Bool) (value : Option LinkValue)
    (isCreatingPage : Bool) : Bool :=
  value.isSome && ! isEditingLink && ! isCreatingPage

/-- Body of the `forceIsEditingLink` synchronisation effect (index.js
177–184): the next `isEditingLink`, paired with the focus moves the effect
issues — none, since its body only calls `setIsEditingLink`. -/
def forceSyncEffect (forceIsEditingLink : Option Bool) (isEditingLink : Bool) :
    Bool × List Nat :=
  match forceIsEditingLink with
  | some b => if b ≠ isEditingLink then (b, []) else (isEditingLink, [])
  | none => (isEditingLink, [])

/-- One render of the component as seen by the focus effect (index.js
186–214): the two effect dependencies, whether `textInputRef.current` is set,
the ordered focusable descendants of `wrapperNode.current` (as element ids),
and the wrapper element's own id. -/
structure RenderFrame where
  isEditingLink : Bool
  isCreatingPage : Bool
  textInputPresent : Bool
  focusables : List Nat
  wrapper : Nat
deriving DecidableEq, Repr

/-- The effect's dependency array `[ isEditingLink, isCreatingPage ]`. -/
def deps (r : RenderFrame) : Bool × Bool := (r.isEditingLink, r.isCreatingPage)

/-- The element the effect body focuses:
`focus.focusable.find( wrapperNode.current )[ whichFocusTargetIndex ] ||
wrapperNode.current`, with `whichFocusTargetIndex = textInputRef?.current ? 1 : 0`. -/
def focusTarget (r : RenderFrame) : Nat :=
  ((r.focusables.get? (if r.textInputPresent then 1 else 0)).getD r.wrapper)

/-- React semantics of the focus effect over a render sequence: `mounting` is
the `isMounting` ref, `prev` the dependency array of the previous render
(`none` before the first render). The effect body runs exactly on renders
whose dependencies differ from the previous render's; on its first run (the
mount) it clears `isMounting` and returns without focusing. Each list entry
is the focus move performed after that render, `none` if focus is untouched. -/
def focusTraceAux : Bool → Option (Bool × Bool) → List RenderFrame →
    List (Option Nat)
  | _, _, [] => []
  | mounting, prev, r :: rest =>
    if prev ≠ some (deps r) then
      if mounting then none :: focusTraceAux false (some (deps r)) rest
      else some (focusTarget r) :: focusTraceAux false (some (deps r)) rest
    else none :: focusTraceAux mounting prev rest

/-- Focus moves across a full mount-to-unmount render sequence. -/
def focusTrace (rs : List RenderFrame) : List (Option Nat) :=
  focusTraceAux true none rs

/-- Modelled from the spec (C3), tail of the focus-move sequence: after the
mount, a focus move happens exactly when `isEditingLink` or `isCreatingPage`
changed from the previous render, targeting the focusable descendant at index
1 when a text-input sub-widget is present and 0 otherwise, and falling back
to the root container when no focusable descendant exists at that index. -/
def focusTraceSpecGo : Bool × Bool → List RenderFrame → List (Option Nat)
  | _, [] => []
  | prev, r :: rest =>
    (if deps r ≠ prev then
      some ((r.focusables.get? (if r.textInputPresent then 1 else 0)).getD
        r.wrapper)
     else none) :: focusTraceSpecGo (deps r) rest

/-- Modelled from the spec (C3): the focus effect never moves focus on the
very first mount; afterwards it behaves as `focusTraceSpecGo`. -/
def focusTraceSpec : List RenderFrame → List (Option Nat)
  | [] => []
  | r :: rest => none :: focusTraceSpecGo (deps r) rest

end LinkControl

namespace QueryTotal

theorem digitChar_ne_lt (n : Nat) (hn : n < 16) : Nat.digitChar n ≠ '<' := by
  interval_cases n <;> decide

theorem toDigitsCore_ne_lt (fuel n : Nat) (ds : List Char)
    (hds : ∀ c ∈ ds, c ≠ '<') :
    ∀ c ∈ Nat.toDigitsCore 10 fuel n ds, c ≠ '<' := by
  induction fuel generalizing n ds with
  | zero => simpa [Nat.toDigitsCore] using hds
  | succ fuel ih =>
    intro c hc
    rw [Nat.toDigitsCore] at hc
    split at hc
    · cases hc with
      | head => exact digitChar_ne_lt _ (by omega)
      | tail _ h => exact hds c h
    · refine ih _ _ ?_ c hc
      intro d hd
      cases hd with
      | head => exact digitChar_ne_lt _ (by omega)
      | tail _ h => exact hds d h

theorem natRepr_ne_lt (n : Nat) : ∀ c ∈ (Nat.repr n).data, c ≠ '<' := by
  intro c hc
  exact toDigitsCore_ne_lt (n + 1) n [] (by simp) c hc

theorem intToString_ne_lt (i : Int) : ∀ c ∈ (toString i).data, c ≠ '<' := by
  cases i with
  | ofNat m => exact natRepr_ne_lt m
  | negSucc m =>
    intro c hc
    have : c ∈ ('-' :: (Nat.repr (m + 1)).data) := hc
    cases this with
    | head => decide
    | tail _ h => exact natRepr_ne_lt (m + 1) c h

theorem stripTagsAux_append_no_lt (l₁ l₂ : List Char) (h : ∀ c ∈ l₁, c ≠ '<') :
    stripTagsAux false (l₁ ++ l₂) = l₁ ++ stripTagsAux false l₂ := by
  induction l₁ with
  | nil => rfl
  | cons c cs ih =>
    have hc : c ≠ '<' := h c (List.mem_cons_self c cs)
    simp only [List.cons_append, stripTagsAux, if_neg hc]
    exact congrArg (c :: ·) (ih fun d hd => h d (List.mem_cons_of_mem _ hd))

theorem strip_p_open (l : List Char) :
    stripTagsAux false ("<p>".data ++ l) = stripTagsAux false l := by
  show stripTagsAux false ('<' :: 'p' :: '>' :: l) = _
  simp [stripTagsAux]

theorem strip_p_strong_open (l : List Char) :
    stripTagsAux false ("<p><strong>".data ++ l) = stripTagsAux false l := by
  show stripTagsAux false
    ('<' :: 'p' :: '>' :: '<' :: 's' :: 't' :: 'r' :: 'o' :: 'n' :: 'g' :: '>' :: l) = _
  simp [stripTagsAux]

theorem strip_strong_open (l : List Char) :
    stripTagsAux false ("<strong>".data ++ l) = stripTagsAux false l := by
  show stripTagsAux false
    ('<' :: 's' :: 't' :: 'r' :: 'o' :: 'n' :: 'g' :: '>' :: l) = _
  simp [stripTagsAux]

theorem strip_strong_close (l : List Char) :
    stripTagsAux false ("</strong>".data ++ l) = stripTagsAux false l := by
  show stripTagsAux false
    ('<' :: '/' :: 's' :: 't' :: 'r' :: 'o' :: 'n' :: 'g' :: '>' :: l) = _
  simp [stripTagsAux]

theorem strip_strong_close_sp (l : List Char) :
    stripTagsAux false ("</strong> ".data ++ l) = ' ' :: stripTagsAux false l := by
  show stripTagsAux false
    ('<' :: '/' :: 's' :: 't' :: 'r' :: 'o' :: 'n' :: 'g' :: '>' :: ' ' :: l) = _
  simp [stripTagsAux]

theorem strip_p_close : stripTagsAux false "</p>".data = [] := by
  decide

theorem strip_displaying (l : List Char) :
    stripTagsAux false ("Displaying ".data ++ l) =
      "Displaying ".data ++ stripTagsAux false l :=
  stripTagsAux_append_no_lt _ _ (by decide)

theorem strip_of_sep (l : List Char) :
    stripTagsAux false (" of ".data ++ l) = " of ".data ++ stripTagsAux false l :=
  stripTagsAux_append_no_lt _ _ (by decide)

theorem strip_dash_sep (l : List Char) :
    stripTagsAux false (" – ".data ++ l) = " – ".data ++ stripTagsAux false l :=
  stripTagsAux_append_no_lt _ _ (by decide)

theorem strip_int (i : Int) (l : List Char) :
    stripTagsAux false ((toString i).data ++ l) =
      (toString i).data ++ stripTagsAux false l :=
  stripTagsAux_append_no_lt _ _ (intToString_ne_lt i)

theorem strip_range_eq (s t : Int) :
    stripMarkup ("<p>" ++
        ("Displaying " ++ strongWrap s ++ " of " ++ strongWrap t) ++ "</p>") =
      "Displaying " ++ toString s ++ " of " ++ toString t := by
  apply String.ext
  simp only [stripMarkup, strongWrap, String.data_append, List.append_assoc]
  rw [strip_p_open, strip_displaying, strip_strong_open, strip_int,
    strip_strong_close, strip_of_sep, strip_strong_open, strip_int,
    strip_strong_close, strip_p_close]
  simp

theorem strip_range_ne (s e t : Int) :
    stripMarkup ("<p>" ++
        ("Displaying " ++ strongWrap s ++ " – " ++ strongWrap e ++ " of " ++
          strongWrap t) ++ "</p>") =
      "Displaying " ++ toString s ++ " – " ++ toString e ++ " of " ++
        toString t := by
  apply String.ext
  simp only [stripMarkup, strongWrap, String.data_append, List.append_assoc]
  rw [strip_p_open, strip_displaying, strip_strong_open, strip_int,
    strip_strong_close, strip_dash_sep, strip_strong_open, strip_int,
    strip_strong_close, strip_of_sep, strip_strong_open, strip_int,
    strip_strong_close, strip_p_close]
  simp

theorem strip_total (t : Int) (x : String) (hx : ∀ c ∈ x.data, c ≠ '<') :
    stripMarkup ("<p><strong>" ++ toString t ++ "</strong> " ++ x ++ "</p>") =
      toString t ++ " " ++ x := by
  apply String.ext
  simp only [stripMarkup, String.data_append, List.append_assoc]
  rw [strip_p_strong_open, strip_int, strip_strong_close_sp,
    stripTagsAux_append_no_lt _ _ hx, strip_p_close]
  simp

end QueryTotal

-- scratch checks
example :
    QueryTotal.stripMarkup (QueryTotal.query_total_output "range-display" 1 10 25) =
      "Displaying 1 – 10 of 25" := by decide

example :
    QueryTotal.stripMarkup (QueryTotal.query_total_output "range-display" 3 10 25) =
      "Displaying 21 – 25 of 25" := by decide

example :
    QueryTotal.stripMarkup (QueryTotal.query_total_output "range-display" 1 1 1) =
      "Displaying 1 of 1" := by decide

example :
    QueryTotal.stripMarkup (QueryTotal.query_total_output "total-results" 1 10 1) =
      "1 result found" := by decide

example :
    QueryTotal.stripMarkup (QueryTotal.query_total_output "total-results" 1 10 0) =
      "0 results found" := by decide

/-- **C7**: with `displayType = "range-display"`, the renderer computes
`start = (current_page - 1) * posts_per_page + 1` and
`end = min (start + posts_per_page - 1, found_posts)` and its text content is
`Displaying {start} of {total}` when `start = end` and
`Displaying {start} – {end} of {total}` otherwise; in particular
`current_page = 1, posts_per_page = 10, found_posts = 25` yields
`Displaying 1 – 10 of 25`. -/
theorem query_total_range_display_spec :
    (∀ current_page posts_per_page found_posts : Int,
      QueryTotal.stripMarkup
          (QueryTotal.query_total_output "range-display" current_page
            posts_per_page found_posts) =
        if (current_page - 1) * posts_per_page + 1 =
            min ((current_page - 1) * posts_per_page + 1 + posts_per_page - 1)
              found_posts then
          "Displaying " ++ toString ((current_page - 1) * posts_per_page + 1) ++
            " of " ++ toString found_posts
        else
          "Displaying " ++ toString ((current_page - 1) * posts_per_page + 1) ++
            " – " ++
            toString
              (min ((current_page - 1) * posts_per_page + 1 + posts_per_page - 1)
                found_posts) ++ " of " ++ toString found_posts) ∧
    QueryTotal.stripMarkup
        (QueryTotal.query_total_output "range-display" 1 10 25) =
      "Displaying 1 – 10 of 25" := by
  refine ⟨fun cp ppp fp => ?_, by decide⟩
  by_cases h : (cp - 1) * ppp + 1 = min ((cp - 1) * ppp + 1 + ppp - 1) fp
  · simp only [QueryTotal.query_total_output, if_pos rfl, if_pos h]
    exact QueryTotal.strip_range_eq _ _
  · simp only [QueryTotal.query_total_output, if_pos rfl, if_neg h]
    exact QueryTotal.strip_range_ne _ _ _

/-- **C8**: with `displayType = "total-results"` or any unrecognized value, the
renderer's text content is `{total} result(s) found`, singular exactly when
`found_posts = 1`. -/
theorem query_total_total_results_spec (displayType : String)
    (current_page posts_per_page found_posts : Int)
    (h : displayType ≠ "range-display") :
    QueryTotal.stripMarkup
        (QueryTotal.query_total_output displayType current_page posts_per_page
          found_posts) =
      toString found_posts ++ " " ++
        (if found_posts = 1 then "result found" else "results found") := by
  simp only [QueryTotal.query_total_output, if_neg h]
  by_cases h1 : found_posts = 1
  · simp only [if_pos h1]
    exact QueryTotal.strip_total _ _ (by decide)
  · simp only [if_neg h1]
    exact QueryTotal.strip_total _ _ (by decide)

/-- Witness for C8: `found_posts = 1` yields `1 result found`, `found_posts = 0`
yields `0 results found`. -/
theorem query_total_total_results_spec_witness :
    QueryTotal.stripMarkup
        (QueryTotal.query_total_output "total-results" 1 10 1) =
      "1 result found" ∧
    QueryTotal.stripMarkup
        (QueryTotal.query_total_output "total-results" 1 10 0) =
      "0 results found" :=
  ⟨(query_total_total_results_spec "total-results" 1 10 1 (by decide)).trans
      (by decide),
    (query_total_total_results_spec "total-results" 1 10 0 (by decide)).trans
      (by decide)⟩

namespace LinkControl

theorem focusTraceAux_eq_specGo (rest : List RenderFrame) :
    ∀ prev : Bool × Bool,
      focusTraceAux false (some prev) rest = focusTraceSpecGo prev rest := by
  induction rest with
  | nil => intro prev; rfl
  | cons r rs ih =>
    intro prev
    by_cases h : deps r = prev
    · simp [focusTraceAux, focusTraceSpecGo, h, ih]
    · simp [focusTraceAux, focusTraceSpecGo, h, Ne.symm h, ih, focusTarget]

end LinkControl

/-- **C3**: the focus-management effect never moves focus on the very first
mount; after mount it runs exactly once per change of `isEditingLink` or
`isCreatingPage`, focusing the focusable descendant at index 1 when the
text-input sub-widget ref is present and index 0 otherwise, and falling back
to the root container when no focusable descendant exists at that index —
i.e. the focus moves of the component coincide with the spec's description on
every render sequence. -/
theorem focusTrace_refines_spec (rs : List LinkControl.RenderFrame) :
    LinkControl.focusTrace rs = LinkControl.focusTraceSpec rs := by
  cases rs with
  | nil => rfl
  | cons r rest =>
    simp [LinkControl.focusTrace, LinkControl.focusTraceAux,
      LinkControl.focusTraceSpec, LinkControl.focusTraceAux_eq_specGo]

/-- **C1**: `handleSubmit` compares the draft against the committed value on
`url` and `title` only; when both match (as JS `!==` on possibly-`undefined`
strings), `onChange` is not invoked; otherwise it is invoked exactly once
with the committed value extended by the draft URL and title; in both cases
editing mode ends (`isEditingLink` becomes false). -/
theorem handleSubmit_reconciliation (value : Option LinkControl.LinkValue)
    (currentUrl internalTextInputValue : String) (focusInWrapper : Bool) :
    ((value.bind LinkControl.LinkValue.url = some currentUrl ∧
        value.bind LinkControl.LinkValue.title = some internalTextInputValue) →
      (LinkControl.handleSubmit value currentUrl internalTextInputValue
        focusInWrapper).emitted = []) ∧
    (¬ (value.bind LinkControl.LinkValue.url = some currentUrl ∧
        value.bind LinkControl.LinkValue.title = some internalTextInputValue) →
      (LinkControl.handleSubmit value currentUrl internalTextInputValue
        focusInWrapper).emitted =
        [LinkControl.extendValue value currentUrl internalTextInputValue]) ∧
    (LinkControl.handleSubmit value currentUrl internalTextInputValue
      focusInWrapper).isEditingLink = false := by
  unfold LinkControl.handleSubmit
  by_cases h : some currentUrl ≠ value.bind LinkControl.LinkValue.url ∨
      some internalTextInputValue ≠ value.bind LinkControl.LinkValue.title
  · rw [if_pos h]
    refine ⟨?_, fun _ => rfl, rfl⟩
    rintro ⟨h1, h2⟩
    rcases h with h | h
    · exact absurd h1.symm h
    · exact absurd h2.symm h
  · rw [if_neg h]
    push_neg at h
    exact ⟨fun _ => rfl, fun hc => absurd ⟨h.1.symm, h.2.symm⟩ hc, rfl⟩

/-- Witness for C1: an identical draft emits nothing; a differing draft (here:
no committed value at all) emits exactly the extended value. -/
theorem handleSubmit_reconciliation_witness :
    (LinkControl.handleSubmit
      (some { url := some "a", title := some "t" }) "a" "t" false).emitted =
        [] ∧
    (LinkControl.handleSubmit none "a" "t" false).emitted =
      [LinkControl.extendValue none "a" "t"] :=
  ⟨(handleSubmit_reconciliation (some { url := some "a", title := some "t" })
      "a" "t" false).1 (by decide),
    (handleSubmit_reconciliation none "a" "t" false).2.1 (by decide)⟩

/-- **C2**: with no forced-editing flag the initial mode is editing iff the
value is absent or its URL missing or empty; with the flag specified, the
initial mode equals the flag. -/
theorem initialIsEditingLink_spec (value : Option LinkControl.LinkValue) :
    (LinkControl.initialIsEditingLink none value = true ↔
      value = none ∨ value.bind LinkControl.LinkValue.url = none ∨
        value.bind LinkControl.LinkValue.url = some "") ∧
    (∀ b : Bool, LinkControl.initialIsEditingLink (some b) value = b) := by
  refine ⟨?_, fun b => rfl⟩
  cases value with
  | none => simp [LinkControl.initialIsEditingLink]
  | some v =>
    cases hv : v.url with
    | none =>
      simp [LinkControl.initialIsEditingLink, LinkControl.jsTruthy, hv]
    | some u =>
      by_cases hu : u = "" <;>
        simp [LinkControl.initialIsEditingLink, LinkControl.jsTruthy, hv, hu]

/-- Witness for C2: a value whose URL is `"x"` starts in viewing mode, an
absent value starts in editing mode, and the forced flag wins. -/
theorem initialIsEditingLink_spec_witness :
    LinkControl.initialIsEditingLink none
        (some ({ url := some "x" } : LinkControl.LinkValue)) ≠ true ∧
    LinkControl.initialIsEditingLink none none = true ∧
    LinkControl.initialIsEditingLink (some false) none = false :=
  ⟨fun he => by
      rcases (initialIsEditingLink_spec
          (some ({ url := some "x" } : LinkControl.LinkValue))).1.mp he with
        h | h | h <;> simp_all,
    (initialIsEditingLink_spec none).1.mpr (Or.inl rfl),
    (initialIsEditingLink_spec none).2 false⟩

/-- **C4**: `showTextControl` is false whenever the committed URL is absent or
trims to the empty string (empty or whitespace-only), regardless of the
`hasTextControl` toggle; it is true exactly when the trimmed committed URL is
non-empty and the toggle is enabled. -/
theorem showTextControl_spec (value : Option LinkControl.LinkValue)
    (hasTextControl : Bool) :
    ((value.bind LinkControl.LinkValue.url = none ∨
        (∃ u, value.bind LinkControl.LinkValue.url = some u ∧
          LinkControl.jsTrim u = "")) →
      LinkControl.showTextControl value hasTextControl = false) ∧
    (LinkControl.showTextControl value hasTextControl = true ↔
      (∃ u, value.bind LinkControl.LinkValue.url = some u ∧
          (LinkControl.jsTrim u).length > 0) ∧ hasTextControl = true) := by
  cases hv : value.bind LinkControl.LinkValue.url with
  | none =>
    constructor
    · intro _
      simp [LinkControl.showTextControl, hv]
    · simp [LinkControl.showTextControl, hv]
  | some u =>
    constructor
    · rintro (h | ⟨w, hw, hwt⟩)
      · exact absurd h (by simp)
      · have huw : u = w := Option.some.inj hw
        subst huw
        simp [LinkControl.showTextControl, hv, hwt]
    · constructor
      · intro h
        simp only [LinkControl.showTextControl, hv, Option.elim,
          Bool.and_eq_true, decide_eq_true_eq] at h
        exact ⟨⟨u, rfl, h.1⟩, h.2⟩
      · rintro ⟨⟨w, hw, hwl⟩, ht⟩
        have huw : u = w := Option.some.inj hw
        subst huw
        simp [LinkControl.showTextControl, hv, hwl, ht]

/-- Witness for C4: a whitespace-only committed URL disables the text control
even with the toggle on; a real URL with the toggle on enables it. -/
theorem showTextControl_spec_witness :
    LinkControl.showTextControl
      (some ({ url := some "  " } : LinkControl.LinkValue)) true = false ∧
    LinkControl.showTextControl
      (some ({ url := some "x" } : LinkControl.LinkValue)) true = true :=
  ⟨(showTextControl_spec
        (some ({ url := some "  " } : LinkControl.LinkValue)) true).1
      (Or.inr ⟨"  ", rfl, by decide⟩),
    (showTextControl_spec
        (some ({ url := some "x" } : LinkControl.LinkValue)) true).2.mpr
      ⟨⟨"x", rfl, by decide⟩, rfl⟩⟩

/-- **C5**: selecting a suggestion notifies `onChange` exactly once with the
suggestion's fields, the title being the draft title text when it is
non-empty and the suggestion's own title otherwise, and the component leaves
editing mode. -/
theorem handleSelectSuggestion_spec (internalTextInputValue : String)
    (updatedValue : LinkControl.LinkValue) (focusInWrapper : Bool) :
    (LinkControl.handleSelectSuggestion internalTextInputValue updatedValue
        focusInWrapper).emitted =
      [{ updatedValue with
          title := if internalTextInputValue = "" then updatedValue.title
            else some internalTextInputValue }] ∧
    (LinkControl.handleSelectSuggestion internalTextInputValue updatedValue
      focusInWrapper).isEditingLink = false := by
  refine ⟨?_, rfl⟩
  by_cases h : internalTextInputValue = "" <;>
    simp [LinkControl.handleSelectSuggestion, h]

/-- **C6**: when the forced-editing flag is defined and differs from the
internal editing state, the sync effect sets the internal state to the flag's
value, and the effect itself issues no focus moves (in any case). -/
theorem forceSyncEffect_spec (forceIsEditingLink : Option Bool)
    (isEditingLink b : Bool) :
    (forceIsEditingLink = some b → b ≠ isEditingLink →
      LinkControl.forceSyncEffect forceIsEditingLink isEditingLink =
        (b, [])) ∧
    (LinkControl.forceSyncEffect forceIsEditingLink isEditingLink).2 = [] := by
  constructor
  · rintro rfl hb
    simp [LinkControl.forceSyncEffect, hb]
  · cases forceIsEditingLink with
    | none => rfl
    | some c =>
      by_cases h : c = isEditingLink <;> simp [LinkControl.forceSyncEffect, h]

/-- Witness for C6: a defined flag `true` against internal state `false`
syncs the state to `true` with no focus move. -/
theorem forceSyncEffect_spec_witness :
    LinkControl.forceSyncEffect (some true) false = (true, []) :=
  (forceSyncEffect_spec (some true) false true).1 rfl (by decide)

/-- **C9**: the edit-controls UI and the link-preview UI are mutually
exclusive: in no state are `shouldShowEditControls` and
`shouldShowLinkPreview` both true. -/
theorem editControls_preview_mutually_exclusive (isEditingLink : Bool)
    (value : Option LinkControl.LinkValue) (isCreatingPage : Bool) :
    (LinkControl.shouldShowEditControls isEditingLink value isCreatingPage &&
      LinkControl.shouldShowLinkPreview isEditingLink value isCreatingPage) =
        false := by
  cases isEditingLink <;> cases value <;> cases isCreatingPage <;> rfl

/-- **C10**: a non-empty `inputValue` prop supersedes the internal draft URL
everywhere it matters: `currentUrlInputValue` is the prop, the submit
comparison and committed URL use the prop (the internal draft is irrelevant),
and `currentInputIsEmpty` is computed from the prop; the internal draft URL
is used exactly when the prop is empty. -/
theorem propInputValue_overrides (value : Option LinkControl.LinkValue)
    (propInputValue internalUrlInputValue internalTextInputValue : String)
    (focusInWrapper : Bool) (h : propInputValue ≠ "") :
    LinkControl.currentUrlInputValue propInputValue internalUrlInputValue =
      propInputValue ∧
    LinkControl.handleSubmitFull value propInputValue internalUrlInputValue
        internalTextInputValue focusInWrapper =
      LinkControl.handleSubmit value propInputValue internalTextInputValue
        focusInWrapper ∧
    (∀ e ∈ (LinkControl.handleSubmitFull value propInputValue
        internalUrlInputValue internalTextInputValue focusInWrapper).emitted,
      e.url = some propInputValue) ∧
    LinkControl.currentInputIsEmpty propInputValue internalUrlInputValue =
      decide ((LinkControl.jsTrim propInputValue).length = 0) ∧
    LinkControl.currentUrlInputValue "" internalUrlInputValue =
      internalUrlInputValue := by
  have hcur : LinkControl.currentUrlInputValue propInputValue
      internalUrlInputValue = propInputValue := by
    simp [LinkControl.currentUrlInputValue, h]
  refine ⟨hcur, ?_, ?_, ?_, ?_⟩
  · unfold LinkControl.handleSubmitFull
    rw [hcur]
  · intro e he
    unfold LinkControl.handleSubmitFull at he
    rw [hcur] at he
    unfold LinkControl.handleSubmit at he
    split at he
    · simp only [List.mem_singleton] at he
      subst he
      rfl
    · simp at he
  · simp [LinkControl.currentInputIsEmpty, hcur]
  · simp [LinkControl.currentUrlInputValue]

/-- Witness for C10: with prop `"x"` and internal draft `"y"`, submitting uses
`"x"` and the emitted value's URL is `"x"`. -/
theorem propInputValue_overrides_witness :
    LinkControl.handleSubmitFull none "x" "y" "t" false =
      LinkControl.handleSubmit none "x" "t" false ∧
    ∀ e ∈ (LinkControl.handleSubmitFull none "x" "y" "t" false).emitted,
      e.url = some "x" :=
  ⟨(propInputValue_overrides none "x" "y" "t" false (by decide)).2.1,
    (propInputValue_overrides none "x" "y" "t" false (by decide)).2.2.1⟩
